import Mathlib

/-
Verification of the VeriFlow state-machine DSL core
(src/digital_design_agent.py): data model, DSL parser, validator and
JSON round-trip.  The Python code is shallowly embedded: each regex of
the source is translated into an explicit matcher with Python's
leftmost-search, greedy / lazy and optional-group backtracking
semantics; Python dicts become insertion-ordered association lists;
code paths that raise (AttributeError / TypeError on a None value)
return Except.error.  Character classes (\w, \s, str.upper, str.lower,
str.strip) are modelled over ASCII, which covers every string the
claims touch.
-/

/-- ASCII model of Python str.isspace / regex \s (space, tab, newline,
carriage return, vertical tab, form feed). -/
def isWsC (c : Char) : Bool :=
  decide (c = ' ' ∨ c = '\t' ∨ c = '\n' ∨ c = '\r' ∨ c.toNat = 11 ∨ c.toNat = 12)

/-- ASCII model of the regex word class \w: letters, digits, underscore. -/
def isWordC (c : Char) : Bool :=
  decide ((97 ≤ c.toNat ∧ c.toNat ≤ 122) ∨ (65 ≤ c.toNat ∧ c.toNat ≤ 90) ∨
    (48 ≤ c.toNat ∧ c.toNat ≤ 57) ∨ c = '_')

/-- ASCII model of str.upper on one character. -/
def upperC (c : Char) : Char :=
  if 97 ≤ c.toNat ∧ c.toNat ≤ 122 then Char.ofNat (c.toNat - 32) else c

/-- ASCII model of str.lower on one character. -/
def lowerC (c : Char) : Char :=
  if 65 ≤ c.toNat ∧ c.toNat ≤ 90 then Char.ofNat (c.toNat + 32) else c

/-- Drop leading whitespace (the greedy regex \s* step). -/
def dropWsL (s : List Char) : List Char := s.dropWhile isWsC

/-- Python str.strip(): remove leading and trailing whitespace. -/
def pyStripL (s : List Char) : List Char :=
  ((s.dropWhile isWsC).reverse.dropWhile isWsC).reverse

/-- Python str.upper over a character list (ASCII model). -/
def pyUpperL (s : List Char) : List Char := s.map upperC

/-- Python str.lower over a character list (ASCII model). -/
def pyLowerL (s : List Char) : List Char := s.map lowerC

/-- Rebuild a String from its characters. -/
def strOf (l : List Char) : String := String.mk l

/-- Python str.split(sep) for a one-character separator: never returns
an empty list; an empty input yields one empty part. -/
def splitOnC (sep : Char) : List Char → List (List Char)
  | [] => [[]]
  | c :: r =>
    let ls := splitOnC sep r
    if c = sep then [] :: ls
    else
      match ls with
      | [] => [[c]]
      | l :: t => (c :: l) :: t

/-- Case-insensitive literal match (regex IGNORECASE): consume `pat`
from the front of `s`, returning the rest. -/
def matchCI : List Char → List Char → Option (List Char)
  | [], s => some s
  | _, [] => none
  | p :: ps, c :: cs => if lowerC p = lowerC c then matchCI ps cs else none

/-- Case-sensitive startswith on character lists. -/
def startsWithL : List Char → List Char → Bool
  | [], _ => true
  | _, [] => false
  | p :: ps, c :: cs => p = c && startsWithL ps cs

/-- Split off the maximal leading run of word characters (greedy \w*). -/
def takeWordL (s : List Char) : List Char × List Char :=
  (s.takeWhile isWordC, s.dropWhile isWordC)

/-- First maximal run of word characters anywhere in the line: the text
the leftmost `\w+` search captures. -/
def firstWordRun (s : List Char) : List Char :=
  (s.dropWhile (fun c => !isWordC c)).takeWhile isWordC

/-- Does the line contain at least one word character? -/
def hasWordChar (s : List Char) : Bool := s.any isWordC

/-- Suffix after the first occurrence of `c` (Python split(c, 1)[1]). -/
def afterFirstC (c : Char) : List Char → List Char
  | [] => []
  | x :: r => if x = c then r else afterFirstC c r

/-- Python substring containment `sub in s` on character lists. -/
def isSubL (sub : List Char) : List Char → Bool
  | [] => sub.isEmpty
  | s@(_ :: t) => startsWithL sub s || isSubL sub t

/-- Python sep.join over a list of strings. -/
def joinSep (sep : String) : List String → String
  | [] => ""
  | [x] => x
  | x :: y :: r => x ++ sep ++ joinSep sep (y :: r)

/-- Single-quote character (ASCII 39), used inside critique strings. -/
def sqc : Char := Char.ofNat 39

/-- Single-quote as a string. -/
def sqs : String := String.singleton sqc

/-- A per-state transition record as built by the parser:
`{"event": ..., "condition": ..., "target": ..., "comment": ...}`. -/
structure Transition where
  event : String
  condition : String
  target : String
  comment : Option String
deriving Repr, DecidableEq

/-- A global transition record as built by the parser:
`{"event": ..., "actions": ..., "target": ..., "comment": ...}`. -/
structure GTransition where
  event : String
  actions : List String
  target : String
  comment : Option String
deriving Repr, DecidableEq

/-- A state record: `{"outputs": ..., "comment": ..., "transitions": ...}`.
Python dicts are modelled as insertion-ordered association lists. -/
structure StateRecord where
  outputs : List (String × String)
  comment : Option String
  transitions : List Transition
deriving Repr, DecidableEq

/-- The Document / StateMachine data: header (only the keys `feature`
and `intent` are ever written), assumptions, global transitions and the
states mapping, in the key order of `_get_initial_structure`. -/
structure Model where
  header : List (String × String)
  assumptions : List String
  global_transitions : List GTransition
  states : List (String × StateRecord)
deriving Repr, DecidableEq

/-- `_get_initial_structure`: the empty Document. -/
def initModel : Model := ⟨[], [], [], []⟩

/-- Association-list lookup, Python `d[k]` / `k in d`. -/
def alookup {α : Type} (k : String) : List (String × α) → Option α
  | [] => none
  | (k', v) :: t => if k' = k then some v else alookup k t

/-- Association-list store, Python `d[k] = v`: replace in place when the
key exists (dict insertion order is preserved), else append. -/
def aset {α : Type} (k : String) (v : α) : List (String × α) → List (String × α)
  | [] => [(k, v)]
  | (k', v') :: t => if k' = k then (k, v) :: t else (k', v') :: aset k v t

/-- In-place update of the value stored at a key, Python `d[k].append`-style
mutation of the looked-up record. -/
def amodify {α : Type} (k : String) (f : α → α) : List (String × α) → List (String × α)
  | [] => []
  | (k', v') :: t => if k' = k then (k', f v') :: t else (k', v') :: amodify k f t

/-- Tail of the pattern shared by both ON_EVENT regexes:
`\s*->\s*TO\((?P<target>\w+)\)` (IGNORECASE).  Returns the target word.
A shorter-than-maximal `\w+` run would have to be followed by a word
character, never by the required close paren, so only the maximal run
can complete the match. -/
def matchArrowTo (s : List Char) : Option (List Char) := do
  let s := dropWsL s
  let s ← match s with
    | '-' :: '>' :: r => some r
    | _ => none
  let s := dropWsL s
  let s ← matchCI "TO(".data s
  let (w, s) := takeWordL s
  match w, s with
  | [], _ => none
  | _, ')' :: _ => some w
  | _, _ => none

/-- Lazy group `(?P<payload>.*?)\)` followed by `\s*->\s*TO\((?P<target>\w+)\)`:
try each close paren from the left and keep the first one after which the
arrow-TO tail matches; the skipped parens become part of the payload. -/
def lazyPayloadThenArrow : List Char → List Char → Option (List Char × List Char)
  | [], _ => none
  | c :: rest, acc =>
    if c = ')' then
      match matchArrowTo rest with
      | some tgt => some (acc.reverse, tgt)
      | none => lazyPayloadThenArrow rest (c :: acc)
    else lazyPayloadThenArrow rest (c :: acc)

/-- One anchored attempt of the two transition regexes
`ON_EVENT\((?P<event>\w+)\):\s*(IF\s*\((?P<condition>.*?)\))?\s*->\s*TO\((?P<target>\w+)\)`
(used with `useIfKw = true` by `_parse_transitions_item`) and
`ON_EVENT\((?P<event>\w+)\):\s*(DO\((?P<actions>.*?)\))?\s*->\s*TO\((?P<target>\w+)\)`
(used with `useIfKw = false` by `_parse_global_transition`), IGNORECASE.
The optional group is tried first (greedy `(...)?`); if its body cannot
complete for any lazy close paren, the group matches empty and the
pattern resumes with the arrow-TO tail, exactly as the regex backtracks.
Returns (event, optional payload group, target). -/
def tryOnEventAt (useIfKw : Bool) (s : List Char) :
    Option (List Char × Option (List Char) × List Char) := do
  let s ← matchCI "ON_EVENT(".data s
  let (ev, s) := takeWordL s
  if ev.isEmpty then none
  else
    match s with
    | ')' :: ':' :: s =>
      let s := dropWsL s
      let kwRest : Option (List Char) :=
        if useIfKw then
          match matchCI "IF".data s with
          | none => none
          | some s' =>
            match dropWsL s' with
            | '(' :: r => some r
            | _ => none
        else matchCI "DO(".data s
      match kwRest with
      | some s' =>
        match lazyPayloadThenArrow s' [] with
        | some (payload, tgt) => some (ev, some payload, tgt)
        | none =>
          match matchArrowTo s with
          | some tgt => some (ev, none, tgt)
          | none => none
      | none =>
        match matchArrowTo s with
        | some tgt => some (ev, none, tgt)
        | none => none
    | _ => none

/-- re.search for the ON_EVENT patterns: leftmost position at which the
anchored attempt succeeds. -/
def searchOnEvent (useIfKw : Bool) : List Char → Option (List Char × Option (List Char) × List Char)
  | [] => none
  | s@(_ :: t) =>
    match tryOnEventAt useIfKw s with
    | some r => some r
    | none => searchOnEvent useIfKw t

/-- Lazy group `(?P<outputs>.*?)\]` at the end of the STATE_LIST pattern:
the payload runs to the first `]`; with no `]` the enclosing optional
group fails. -/
def lazyUntilRBracket : List Char → List Char → Option (List Char)
  | [], _ => none
  | c :: rest, acc =>
    if c = ']' then some acc.reverse else lazyUntilRBracket rest (c :: acc)

/-- One anchored attempt of the STATE_LIST regex
`(?P<state>\w+)\s*(\[Output:\s*(?P<outputs>.*?)\])?` (IGNORECASE):
a nonempty word run, greedy whitespace, then the optional bracket group,
which yields None when `\[Output:` does not follow or no `]` closes it.
Nothing follows the optional group, so its failure never backtracks into
the word run. -/
def tryStateListAt (s : List Char) : Option (List Char × Option (List Char)) :=
  let (w, s1) := takeWordL s
  if w.isEmpty then none
  else
    let s2 := dropWsL s1
    match matchCI "[Output:".data s2 with
    | some s3 =>
      match lazyUntilRBracket (dropWsL s3) [] with
      | some payload => some (w, some payload)
      | none => some (w, none)
    | none => some (w, none)

/-- re.search for the STATE_LIST pattern: leftmost match, i.e. the first
word character of the line starts the captured state name. -/
def searchStateList : List Char → Option (List Char × Option (List Char))
  | [] => none
  | s@(_ :: t) =>
    match tryStateListAt s with
    | some r => some r
    | none => searchStateList t

/-- re.match (anchored) of `FROM\((?P<state>\w+)\):` (IGNORECASE);
trailing text is allowed. -/
def matchFrom (s : List Char) : Option (List Char) := do
  let s ← matchCI "FROM(".data s
  let (w, s) := takeWordL s
  if w.isEmpty then none
  else
    match s with
    | ')' :: ':' :: _ => some w
    | _ => none

/-- re.match of a header directive `#\s*KW:\s*(.*)` (IGNORECASE) followed
by Python .strip() of the captured group, as in `_parse_header`. -/
def matchHeaderDirective (kw : String) (s : List Char) : Option String :=
  match s with
  | '#' :: s1 =>
    match matchCI kw.data (dropWsL s1) with
    | some s2 => some (strOf (pyStripL (dropWsL s2)))
    | none => none
  | _ => none

/-- `_extract_comment`: everything after the first `#`, stripped; None
when the line has no `#`. -/
def extractComment (line : List Char) : Option String :=
  if line.contains '#' then some (strOf (pyStripL (afterFirstC '#' line))) else none

/-- The `Output:` clause body of `_parse_state_list_item`: split on
commas, split each part on `=`, keep only parts with exactly one `=`,
strip key and value, store into the dict in order. -/
def parseOutputs (o : List Char) : List (String × String) :=
  (splitOnC ',' o).foldl
    (fun d part =>
      match splitOnC '=' part with
      | [k, v] => aset (strOf (pyStripL k)) (strOf (pyStripL v)) d
      | _ => d)
    []

/-- `_parse_header`: the line (which starts with `#`) is tested against
the FEATURE, INTENT and ASSUME directives in order; each hit writes the
header key or appends an assumption. -/
def parseHeaderLine (line : List Char) (m : Model) : Model :=
  let m :=
    match matchHeaderDirective "FEATURE:" line with
    | some txt => { m with header := aset "feature" txt m.header }
    | none => m
  let m :=
    match matchHeaderDirective "INTENT:" line with
    | some txt => { m with header := aset "intent" txt m.header }
    | none => m
  match matchHeaderDirective "ASSUME:" line with
  | some txt => { m with assumptions := m.assumptions ++ [txt] }
  | none => m

/-- `_parse_global_transition`.  When the line matches and the DO group
is absent, groupdict() holds None for `actions`, `dict.get('actions','')`
returns that None (the key is present), and `None.split(',')` raises
AttributeError — modelled as Except.error.  With a DO clause the comma
parts are stripped and empty parts dropped; they are NOT uppercased. -/
def parseGlobalLine (line : List Char) (m : Model) : Except String Model :=
  match searchOnEvent false line with
  | none => Except.ok m
  | some (ev, payload, tgt) =>
    match payload with
    | none => Except.error "AttributeError: NoneType object has no attribute split"
    | some a =>
      let actions := (((splitOnC ',' a).map pyStripL).filter (fun p => !p.isEmpty)).map strOf
      Except.ok { m with global_transitions := m.global_transitions ++
        [⟨strOf (pyUpperL ev), actions, strOf (pyUpperL tgt), extractComment line⟩] }

/-- `_parse_state_list_item`.  On a match the record
`{outputs, comment, transitions: []}` is stored at the uppercased state
name; the Python two-step (`states[name] = {}` when absent, then
`.update` of all three keys) amounts to storing a fresh record, replacing
any previous one.  `if data['outputs']:` is a truthiness test: both a
missing group (None) and an empty capture leave the outputs empty. -/
def parseStateLine (line : List Char) (m : Model) : Model :=
  match searchStateList line with
  | none => m
  | some (w, outputsOpt) =>
    let name := strOf (pyUpperL w)
    let outputs :=
      match outputsOpt with
      | none => []
      | some o => if o.isEmpty then [] else parseOutputs o
    { m with states := aset name ⟨outputs, extractComment line, []⟩ m.states }

/-- The parser's line-scoped mutable state: the active section and the
active FROM source state. -/
inductive Sec
  | globalT
  | stateList
  | transitions
deriving Repr, DecidableEq

/-- Parser cursor: `current_section`, `current_from_state` and the
mutated Model. -/
structure PState where
  sec : Option Sec
  fromState : Option String
  model : Model
deriving Repr, DecidableEq

/-- `_parse_transitions_item`.  A FROM line sets the active source state;
otherwise, with no active source state the line is skipped before any
matching.  On an ON_EVENT match the transition dict is built first:
when the IF group is absent, groupdict() holds None for `condition`,
`dict.get('condition','True')` returns that None and `None.strip()`
raises AttributeError — modelled as Except.error.  Only then does the
code append, and only when the source state is a key of states. -/
def parseTransLine (line : List Char) (st : PState) : Except String PState :=
  match matchFrom line with
  | some w => Except.ok { st with fromState := some (strOf (pyUpperL w)) }
  | none =>
    match st.fromState with
    | none => Except.ok st
    | some fs =>
      match searchOnEvent true line with
      | none => Except.ok st
      | some (ev, condOpt, tgt) =>
        match condOpt with
        | none => Except.error "AttributeError: NoneType object has no attribute strip"
        | some c =>
          let t : Transition :=
            ⟨strOf (pyUpperL ev), strOf (pyStripL c), strOf (pyUpperL tgt), extractComment line⟩
          if (alookup fs st.model.states).isSome then
            Except.ok { st with model := { st.model with
              states := amodify fs (fun r => { r with transitions := r.transitions ++ [t] }) st.model.states } }
          else Except.ok st

/-- `_is_section_header` combined with `_set_section`: a line whose
uppercase form starts with one of the three section names (everything
before the first colon) switches the section. -/
def sectionOf (line : List Char) : Option Sec :=
  let u := pyUpperL line
  if startsWithL "GLOBAL_TRANSITIONS:".data u then some Sec.globalT
  else if startsWithL "STATE_LIST:".data u then some Sec.stateList
  else if startsWithL "TRANSITIONS:".data u then some Sec.transitions
  else none

/-- One iteration of `DSLParser.parse`'s loop on a raw line: strip, skip
blanks, route `#` lines to the header parser, switch sections (resetting
the FROM state), else dispatch on the active section; lines before any
section header are dropped. -/
def stepLine (st : PState) (rawLine : List Char) : Except String PState :=
  let line := pyStripL rawLine
  match line with
  | [] => Except.ok st
  | '#' :: _ => Except.ok { st with model := parseHeaderLine line st.model }
  | _ =>
    match sectionOf line with
    | some s => Except.ok { st with sec := some s, fromState := none }
    | none =>
      match st.sec with
      | some Sec.globalT => (parseGlobalLine line st.model).map (fun m => { st with model := m })
      | some Sec.stateList => Except.ok { st with model := parseStateLine line st.model }
      | some Sec.transitions => parseTransLine line st
      | none => Except.ok st

/-- `DSLParser.parse` run against an arbitrary starting Model:
`dsl_text.strip().split('\n')`, then the line loop. -/
def parseDSLFrom (m0 : Model) (text : String) : Except String Model :=
  ((splitOnC '\n' (pyStripL text.data)).foldlM stepLine ⟨none, none, m0⟩).map PState.model

/-- `DSLParser.parse` on a fresh Document, as in a fresh-agent run. -/
def parseDSL (text : String) : Except String Model := parseDSLFrom initModel text

/-- `StateMachine.get_all_defined_states`: the keys of `states`.
Python returns a set; it is modelled as the key list (no duplicates
arise, keys being dict keys). -/
def getAllDefinedStates (m : Model) : List String := m.states.map Prod.fst

/-- Python `set.add`: append only when absent (first-seen order model of
an unordered set). -/
def setAdd (x : String) (s : List String) : List String :=
  if x ∈ s then s else s ++ [x]

/-- `StateMachine.get_all_target_states`: collect every transition
target, global ones first, then each state's transitions.  Every record
built by the parser carries a `target` key, so the `'target' in trans`
guards always pass. -/
def getAllTargetStates (m : Model) : List String :=
  let t := m.global_transitions.foldl (fun s tr => setAdd tr.target s) []
  m.states.foldl (fun s nr => nr.2.transitions.foldl (fun s' tr => setAdd tr.target s') s) t

/-- The undefined-states critique, with the joined names spliced in. -/
def undefinedMsg (joined : String) : String :=
  "Undefined State Error: The following states are used in transitions but not defined in STATE_LIST: "
    ++ joined ++ ". Please define them."

/-- `target_states - defined_states` of `_check_undefined_states`,
in target first-seen order. -/
def undefinedOf (m : Model) : List String :=
  (getAllTargetStates m).filter (fun t => !(getAllDefinedStates m).contains t)

/-- `Validator._check_undefined_states`: when the difference is
non-empty, emit one critique joining all its members. -/
def checkUndefinedStates (m : Model) : List String :=
  let undefined := undefinedOf m
  if !undefined.isEmpty then [undefinedMsg (joinSep ", " undefined)] else []

/-- The deadlock critique for one state name. -/
def deadlockMsg (n : String) : String :=
  "Potential Deadlock: State " ++ sqs ++ n ++ sqs ++
    " is reachable but has no outgoing transitions. Is this an intended final state?"

/-- The body of `_find_deadlocks` for one state entry: when
`bool(state_data.get('transitions'))` is false, test whether the state
is a global target or a regular target and append the critique. -/
def deadlockStep (m : Model) (acc : List String) (nr : String × StateRecord) : List String :=
  if nr.2.transitions.isEmpty then
    let isGlobalTarget := m.global_transitions.any (fun t => t.target = nr.1)
    let isRegularTarget := m.states.any (fun sr => sr.2.transitions.any (fun t => t.target = nr.1))
    if isGlobalTarget || isRegularTarget then acc ++ [deadlockMsg nr.1] else acc
  else acc

/-- `Validator._find_deadlocks`: for every defined state without
outgoing transitions that is the target of a global or of some state's
transition, one critique.  The Python loop runs over the set of state
names and indexes back into `states`; it is modelled as the equivalent
iteration over the (key-distinct) entries in insertion order. -/
def findDeadlocks (m : Model) : List String :=
  m.states.foldl (deadlockStep m) []

/-- The deadlock test on one states entry: no outgoing transitions and
referenced as a global or regular target (the combined condition of the
two nested ifs of `_find_deadlocks`). -/
def deadlockCond (m : Model) (nr : String × StateRecord) : Bool :=
  nr.2.transitions.isEmpty &&
    (m.global_transitions.any (fun t => t.target = nr.1) ||
     m.states.any (fun sr => sr.2.transitions.any (fun t => t.target = nr.1)))

/-- The future-proofing critique for one state. -/
def futureMsg (n c : String) : String :=
  "Future-Proofing Notice: The comment for state " ++ sqs ++ n ++ sqs ++ " (" ++ sqs ++ c ++ sqs ++
    ") mentions future plans. I will keep this in mind for extensibility."

/-- The criticality critique for one transition. -/
def criticalMsg (n e : String) : String :=
  "Criticality Notice: Transition from " ++ sqs ++ n ++ sqs ++ " on event " ++ sqs ++ e ++ sqs ++
    " is marked as critical. I will prioritize this path."

/-- `Validator._check_comment_hints`.  The records built by the parser
always carry a `comment` key, so `data.get('comment','')` returns the
stored value even when it is None; `'v2' in None` then raises TypeError,
and on a transition `None.lower()` raises AttributeError — both modelled
as Except.error.  With string comments: a state comment containing the
exact-case substring `v2` or `future` yields one notice, and a
transition comment whose lowercase form contains `critical` yields one
notice, in iteration order. -/
def checkCommentHints (m : Model) : Except String (List String) :=
  m.states.foldlM
    (fun acc nr => do
      let acc ←
        match nr.2.comment with
        | none => Except.error "TypeError: argument of type NoneType is not iterable"
        | some c =>
          pure (if isSubL "v2".data c.data || isSubL "future".data c.data
            then acc ++ [futureMsg nr.1 c] else acc)
      nr.2.transitions.foldlM
        (fun acc2 t =>
          match t.comment with
          | none => Except.error "AttributeError: NoneType object has no attribute lower"
          | some c =>
            pure (if isSubL "critical".data (pyLowerL c.data)
              then acc2 ++ [criticalMsg nr.1 t.event] else acc2))
        acc)
    []

/-- `Validator.validate`: the three checks in order, their critiques
concatenated; a raise inside the comment-hints check aborts the run. -/
def validate (m : Model) : Except String (List String) := do
  let c1 := checkUndefinedStates m
  let c2 := findDeadlocks m
  let c3 ← checkCommentHints m
  pure (c1 ++ c2 ++ c3)

/- The JSON-representable values the Document ranges over (json.dumps /
json.loads of `StateMachine.save` / `StateMachine.load`): strings, null,
arrays and string-keyed objects.  The Document never contains numbers or
booleans, so the model covers exactly this subset. -/
mutual
inductive PyVal : Type where
  | str : String → PyVal
  | null : PyVal
  | arr : PyArr → PyVal
  | obj : PyObj → PyVal
inductive PyArr : Type where
  | nil : PyArr
  | cons : PyVal → PyArr → PyArr
inductive PyObj : Type where
  | nil : PyObj
  | cons : String → PyVal → PyObj → PyObj
end

/-- Lower-case hex digit of a value below 16, as json.dumps emits. -/
def hexDigChar (n : Nat) : Char :=
  if n < 10 then Char.ofNat (48 + n) else Char.ofNat (87 + n)

/-- Numeric value of a hex digit (0 for non-digits). -/
def hexVal (c : Char) : Nat :=
  if 48 ≤ c.toNat ∧ c.toNat ≤ 57 then c.toNat - 48
  else if 97 ≤ c.toNat ∧ c.toNat ≤ 102 then c.toNat - 87
  else if 65 ≤ c.toNat ∧ c.toNat ≤ 70 then c.toNat - 55
  else 0

/-- Is the character a hex digit? -/
def isHexDigC (c : Char) : Bool :=
  decide ((48 ≤ c.toNat ∧ c.toNat ≤ 57) ∨ (97 ≤ c.toNat ∧ c.toNat ≤ 102) ∨
    (65 ≤ c.toNat ∧ c.toNat ≤ 70))

/-- JSON string escaping of one character: quote and backslash get a
backslash escape, control characters a \\u00XX escape, all else is kept
literally (json.dumps additionally \\u-escapes non-ASCII; keeping those
characters literal is also valid JSON and round-trips identically). -/
def escChar (c : Char) : List Char :=
  if c = '"' then ['\\', '"']
  else if c = '\\' then ['\\', '\\']
  else if c.toNat < 32 then
    ['\\', 'u', '0', '0', hexDigChar (c.toNat / 16), hexDigChar (c.toNat % 16)]
  else [c]

/-- JSON string escaping of a character sequence. -/
def escStr : List Char → List Char
  | [] => []
  | c :: r => escChar c ++ escStr r

/- json.dumps of the Document value subset (whitespace layout such as
`indent=2` is immaterial to the parse, which skips whitespace). -/
mutual
def dumpV : PyVal → List Char
  | PyVal.str s => '"' :: (escStr s.data ++ ['"'])
  | PyVal.null => "null".data
  | PyVal.arr a => '[' :: (dumpArr a ++ [']'])
  | PyVal.obj o => '{' :: (dumpObj o ++ ['}'])
def dumpArr : PyArr → List Char
  | PyArr.nil => []
  | PyArr.cons v t => dumpV v ++ dumpArrTail t
def dumpArrTail : PyArr → List Char
  | PyArr.nil => []
  | PyArr.cons v t => ',' :: ' ' :: (dumpV v ++ dumpArrTail t)
def dumpObj : PyObj → List Char
  | PyObj.nil => []
  | PyObj.cons k v t => '"' :: (escStr k.data ++ ['"', ':', ' ']) ++ (dumpV v ++ dumpObjTail t)
def dumpObjTail : PyObj → List Char
  | PyObj.nil => []
  | PyObj.cons k v t =>
    ',' :: ' ' :: ('"' :: (escStr k.data ++ ['"', ':', ' ']) ++ (dumpV v ++ dumpObjTail t))
end

/-- JSON string-body parser (after the opening quote): literal characters
up to the closing quote, with the standard backslash escapes. -/
def parseStrChars : List Char → Option (List Char × List Char)
  | [] => none
  | c :: rest =>
    if c = '"' then some ([], rest)
    else if c = '\\' then
      match rest with
      | [] => none
      | e :: rest2 =>
        if e = '"' ∨ e = '\\' ∨ e = '/' then
          (parseStrChars rest2).map (fun p => (e :: p.1, p.2))
        else if e = 'b' then (parseStrChars rest2).map (fun p => (Char.ofNat 8 :: p.1, p.2))
        else if e = 'f' then (parseStrChars rest2).map (fun p => (Char.ofNat 12 :: p.1, p.2))
        else if e = 'n' then (parseStrChars rest2).map (fun p => ('\n' :: p.1, p.2))
        else if e = 'r' then (parseStrChars rest2).map (fun p => ('\r' :: p.1, p.2))
        else if e = 't' then (parseStrChars rest2).map (fun p => ('\t' :: p.1, p.2))
        else if e = 'u' then
          match rest2 with
          | h1 :: h2 :: h3 :: h4 :: rest3 =>
            if isHexDigC h1 && isHexDigC h2 && isHexDigC h3 && isHexDigC h4 then
              (parseStrChars rest3).map (fun p =>
                (Char.ofNat (hexVal h1 * 4096 + hexVal h2 * 256 + hexVal h3 * 16 + hexVal h4) :: p.1, p.2))
            else none
          | _ => none
        else none
    else (parseStrChars rest).map (fun p => (c :: p.1, p.2))

/- json.loads of the Document value subset: recursive-descent with a
fuel bound on nesting steps; whitespace is skipped before every token. -/
mutual
def parseV : Nat → List Char → Option (PyVal × List Char)
  | 0, _ => none
  | Nat.succ fuel, s =>
    match dropWsL s with
    | '"' :: r => (parseStrChars r).map (fun p => (PyVal.str (strOf p.1), p.2))
    | 'n' :: 'u' :: 'l' :: 'l' :: r => some (PyVal.null, r)
    | '[' :: r => (parseArr fuel r).map (fun p => (PyVal.arr p.1, p.2))
    | '{' :: r => (parseObj fuel r).map (fun p => (PyVal.obj p.1, p.2))
    | _ => none
def parseArr : Nat → List Char → Option (PyArr × List Char)
  | 0, _ => none
  | Nat.succ fuel, s =>
    match dropWsL s with
    | ']' :: r => some (PyArr.nil, r)
    | s' => do
      let (v, r1) ← parseV fuel s'
      let (t, r2) ← parseArrTail fuel r1
      pure (PyArr.cons v t, r2)
def parseArrTail : Nat → List Char → Option (PyArr × List Char)
  | 0, _ => none
  | Nat.succ fuel, s =>
    match dropWsL s with
    | ']' :: r => some (PyArr.nil, r)
    | ',' :: r => do
      let (v, r1) ← parseV fuel r
      let (t, r2) ← parseArrTail fuel r1
      pure (PyArr.cons v t, r2)
    | _ => none
def parseObj : Nat → List Char → Option (PyObj × List Char)
  | 0, _ => none
  | Nat.succ fuel, s =>
    match dropWsL s with
    | '}' :: r => some (PyObj.nil, r)
    | '"' :: r => do
      let (k, r1) ← parseStrChars r
      match dropWsL r1 with
      | ':' :: r2 => do
        let (v, r3) ← parseV fuel r2
        let (t, r4) ← parseObjTail fuel r3
        pure (PyObj.cons (strOf k) v t, r4)
      | _ => none
    | _ => none
def parseObjTail : Nat → List Char → Option (PyObj × List Char)
  | 0, _ => none
  | Nat.succ fuel, s =>
    match dropWsL s with
    | '}' :: r => some (PyObj.nil, r)
    | ',' :: r =>
      match dropWsL r with
      | '"' :: r1 => do
        let (k, r2) ← parseStrChars r1
        match dropWsL r2 with
        | ':' :: r3 => do
          let (v, r4) ← parseV fuel r3
          let (t, r5) ← parseObjTail fuel r4
          pure (PyObj.cons (strOf k) v t, r5)
        | _ => none
      | _ => none
    | _ => none
end

/- Fuel bound: one unit per constructor of the value. -/
mutual
def sizeV : PyVal → Nat
  | PyVal.str _ => 1
  | PyVal.null => 1
  | PyVal.arr a => sizeA a + 1
  | PyVal.obj o => sizeO o + 1
def sizeA : PyArr → Nat
  | PyArr.nil => 1
  | PyArr.cons v t => Nat.max (sizeV v) (sizeA t) + 1
def sizeO : PyObj → Nat
  | PyObj.nil => 1
  | PyObj.cons _ v t => Nat.max (sizeV v) (sizeO t) + 1
end

/-- `StateMachine.save`'s serialized text (modulo indentation). -/
def pyDumps (v : PyVal) : String := strOf (dumpV v)

/-- `StateMachine.load`'s parse of a serialized document: one value,
then only trailing whitespace. -/
def pyLoads (s : String) : Option PyVal :=
  match parseV (s.data.length + 1) s.data with
  | some (v, r) => if (dropWsL r).isEmpty then some v else none
  | none => none

/-- List of values as a JSON array. -/
def listToArr : List PyVal → PyArr
  | [] => PyArr.nil
  | v :: t => PyArr.cons v (listToArr t)

/-- Optional comment: a string or JSON null. -/
def optStrToPy : Option String → PyVal
  | none => PyVal.null
  | some s => PyVal.str s

/-- Association list as a JSON object in insertion order. -/
def pairsToObj : List (String × PyVal) → PyObj
  | [] => PyObj.nil
  | (k, v) :: t => PyObj.cons k v (pairsToObj t)

/-- A per-state transition as the parser's dict literal orders it. -/
def transToPy (t : Transition) : PyVal :=
  PyVal.obj (PyObj.cons "event" (PyVal.str t.event)
    (PyObj.cons "condition" (PyVal.str t.condition)
      (PyObj.cons "target" (PyVal.str t.target)
        (PyObj.cons "comment" (optStrToPy t.comment) PyObj.nil))))

/-- A global transition as the parser's dict literal orders it. -/
def gtransToPy (t : GTransition) : PyVal :=
  PyVal.obj (PyObj.cons "event" (PyVal.str t.event)
    (PyObj.cons "actions" (PyVal.arr (listToArr (t.actions.map PyVal.str)))
      (PyObj.cons "target" (PyVal.str t.target)
        (PyObj.cons "comment" (optStrToPy t.comment) PyObj.nil))))

/-- A state record as the parser's update dict orders it. -/
def stateRecToPy (r : StateRecord) : PyVal :=
  PyVal.obj (PyObj.cons "outputs"
      (PyVal.obj (pairsToObj (r.outputs.map (fun kv => (kv.1, PyVal.str kv.2)))))
    (PyObj.cons "comment" (optStrToPy r.comment)
      (PyObj.cons "transitions" (PyVal.arr (listToArr (r.transitions.map transToPy))) PyObj.nil)))

/-- The whole Document as its JSON value, keys in the order of
`_get_initial_structure`. -/
def modelToPy (m : Model) : PyVal :=
  PyVal.obj (PyObj.cons "header"
      (PyVal.obj (pairsToObj (m.header.map (fun kv => (kv.1, PyVal.str kv.2)))))
    (PyObj.cons "assumptions" (PyVal.arr (listToArr (m.assumptions.map PyVal.str)))
      (PyObj.cons "global_transitions" (PyVal.arr (listToArr (m.global_transitions.map gtransToPy)))
        (PyObj.cons "states"
          (PyVal.obj (pairsToObj (m.states.map (fun kv => (kv.1, stateRecToPy kv.2))))) PyObj.nil))))

/-- Every transition target as written in the model, with multiplicity:
global transitions first, then each state's transitions. -/
def rawTargets (m : Model) : List String :=
  m.global_transitions.map GTransition.target ++
    (m.states.map (fun nr => nr.2.transitions.map Transition.target)).flatten

/-- Is the name the target of some global or some state transition? -/
def referencedAsTarget (m : Model) (n : String) : Bool := (rawTargets m).contains n

/-- The uppercased first maximal word run of a line: the state name a
STATE_LIST line declares. -/
def upperFirstWord (l : List Char) : String := strOf (pyUpperL (firstWordRun l))

/-- The outputs dictionary a STATE_LIST line itself denotes. -/
def lineOutputs (line : List Char) : List (String × String) :=
  match searchStateList line with
  | some (_, some o) => if o.isEmpty then [] else parseOutputs o
  | _ => []

/-- Example for the redeclaration claim: state A declared with one
attached transition. -/
def mC4 : Model := ⟨[], [], [], [("A", ⟨[], none, [⟨"E", "x", "B", none⟩]⟩)]⟩

/-- Example for the deadlock claim: A has a transition to B, B has
none; C also has none but nothing references it. -/
def mC6 : Model := ⟨[], [], [],
  [("A", ⟨[], some "", [⟨"GO", "True", "B", none⟩]⟩),
   ("B", ⟨[], some "", []⟩),
   ("C", ⟨[], some "", []⟩)]⟩

/-- Example for the undefined-state claim: targets GLOB (global) and B
(from A), with only A declared. -/
def mC7 : Model := ⟨[], [], [⟨"E", [], "GLOB", none⟩],
  [("A", ⟨[], none, [⟨"GO", "True", "B", none⟩]⟩)]⟩

/-- Claim C1: the claim states that Parser.parse() never raises and that
every unmatched or malformed line in a recognized section is a silent
no-op.  The code contradicts this: a GLOBAL_TRANSITIONS line that fully
matches the ON_EVENT pattern but carries no DO(...) clause reaches
`data.get('actions','').split(',')` with a None group value (groupdict
always contains the key, so the get-default is dead) and raises
AttributeError, aborting the parse. -/
theorem parse_global_line_without_do_raises :
    parseDSL "GLOBAL_TRANSITIONS:\nON_EVENT(RESET): -> TO(IDLE)" =
      Except.error "AttributeError: NoneType object has no attribute split" := by
  rfl

/-- Claim C2: the claim states that a TRANSITIONS line without an
IF(...) clause yields a condition equal to the literal string "True".
The code instead raises AttributeError on every such line (after a FROM
is active): groupdict()['condition'] is None, `dict.get('condition',
'True')` returns that None since the key is present, and None.strip()
fails — the "True" default is unreachable.  When an IF clause is
present the condition text is indeed kept verbatim, case preserved and
trimmed (second conjunct). -/
theorem transition_condition_default_raises_if_kept_verbatim :
    parseDSL "STATE_LIST:\nIDLE\nTRANSITIONS:\nFROM(IDLE):\nON_EVENT(GO): -> TO(RUN)" =
      Except.error "AttributeError: NoneType object has no attribute strip" ∧
    parseDSL "STATE_LIST:\nIDLE\nTRANSITIONS:\nFROM(IDLE):\nON_EVENT(GO): IF ( Code == Valid ) -> TO(RUN)" =
      Except.ok ⟨[], [], [], [("IDLE", ⟨[], none,
        [⟨"GO", "Code == Valid", "RUN", none⟩]⟩)]⟩ := by
  exact ⟨rfl, rfl⟩

/-- Claim C3: the claim states that the actions of a matching
GLOBAL_TRANSITIONS line are the comma-split DO(...) entries trimmed and
uppercased, and the empty list when DO(...) is absent.  The code
diverges twice: with DO(...) absent it raises AttributeError
(None.split, first conjunct), and with DO(...) present the entries are
trimmed and empty entries dropped but NOT uppercased (second conjunct:
"stop"/"clear" stay lowercase while event and target are uppercased). -/
theorem global_actions_raise_without_do_and_keep_case :
    parseDSL "GLOBAL_TRANSITIONS:\nON_EVENT(PANIC): -> TO(SAFE)" =
      Except.error "AttributeError: NoneType object has no attribute split" ∧
    parseDSL "GLOBAL_TRANSITIONS:\non_event(panic): do(stop, , clear ,) -> to(safe)" =
      Except.ok ⟨[], [], [⟨"PANIC", ["stop", "clear"], "SAFE", none⟩], []⟩ := by
  exact ⟨rfl, rfl⟩

/-- Claim C5: the claim states that a matching TRANSITIONS line is
appended only when the active source state is a key of states and is
otherwise silently discarded with the Model unchanged.  The membership
gating does hold on the paths that complete — (b) with no FROM seen the
line is skipped before matching, (c) with an undeclared FROM and an IF
clause the built transition is dropped, (d) with a declared FROM it is
appended — but on path (a), an undeclared FROM and no IF clause, the
code raises (the condition-default AttributeError fires while building
the transition, before the membership test) instead of discarding. -/
theorem transitions_membership_gating_and_crash :
    parseDSL "STATE_LIST:\nA\nTRANSITIONS:\nFROM(GHOST):\nON_EVENT(E): -> TO(B)" =
      Except.error "AttributeError: NoneType object has no attribute strip" ∧
    parseDSL "STATE_LIST:\nA\nTRANSITIONS:\nON_EVENT(E): IF (x) -> TO(B)" =
      Except.ok ⟨[], [], [], [("A", ⟨[], none, []⟩)]⟩ ∧
    parseDSL "STATE_LIST:\nA\nTRANSITIONS:\nFROM(GHOST):\nON_EVENT(E): IF (x) -> TO(B)" =
      Except.ok ⟨[], [], [], [("A", ⟨[], none, []⟩)]⟩ ∧
    parseDSL "STATE_LIST:\nA\nTRANSITIONS:\nFROM(A):\nON_EVENT(E): IF (x) -> TO(B)" =
      Except.ok ⟨[], [], [], [("A", ⟨[], none, [⟨"E", "x", "B", none⟩]⟩)]⟩ := by
  exact ⟨rfl, rfl, rfl, rfl⟩

/-- Claim C8: the claim states that states and transitions without
comments contribute no notices.  The code instead raises on them: the
parser stores comment None, `data.get('comment','')` returns that None
(key present), and `'v2' in None` raises TypeError — so validating the
parse of the minimal document `STATE_LIST:\nA` aborts (first conjunct).
On records whose comments are strings the claimed rules do hold (second
conjunct): exact-case `v2`/`future` in a state comment gives one
future-proofing notice ("V2" alone does not), and `critical` in the
lowercased transition comment gives one criticality notice. -/
theorem comment_hints_raise_on_missing_comment :
    (parseDSL "STATE_LIST:\nA" >>= validate) =
      Except.error "TypeError: argument of type NoneType is not iterable" ∧
    checkCommentHints ⟨[], [], [],
      [("A", ⟨[], some "ready for v2", [⟨"GO", "True", "B", some "this path is CRITICAL"⟩]⟩),
       ("B", ⟨[], some "V2 FUTURE plans", [⟨"UP", "True", "A", some "fine"⟩]⟩)]⟩ =
      Except.ok [futureMsg "A" "ready for v2", criticalMsg "A" "GO"] := by
  exact ⟨rfl, rfl⟩

/-- Looking up a key right after storing it yields the stored value. -/
theorem alookup_aset_self {α : Type} (k : String) (v : α) (l : List (String × α)) :
    alookup k (aset k v l) = some v := by
  induction l with
  | nil => simp [aset, alookup]
  | cons h t ih =>
    obtain ⟨k', v'⟩ := h
    by_cases hk : k' = k
    · simp [aset, hk, alookup]
    · simp [aset, hk, alookup, ih]

/-- At a word character the STATE_LIST pattern always matches, capturing
the maximal word run; the optional bracket group never fails the match. -/
theorem tryStateListAt_word (c : Char) (t : List Char) (hc : isWordC c = true) :
    ∃ o, tryStateListAt (c :: t) = some ((c :: t).takeWhile isWordC, o) := by
  simp only [tryStateListAt, takeWordL, List.takeWhile_cons, List.dropWhile_cons, hc, if_true,
    List.isEmpty_cons, Bool.false_eq_true, if_false]
  split
  · split
    · exact ⟨_, rfl⟩
    · exact ⟨none, rfl⟩
  · exact ⟨none, rfl⟩

/-- On any line holding a word character, the STATE_LIST search matches
and captures the first maximal word run of the line. -/
theorem searchStateList_hasWord (l : List Char) (h : hasWordChar l = true) :
    ∃ o, searchStateList l = some (firstWordRun l, o) := by
  induction l with
  | nil => simp [hasWordChar] at h
  | cons c t ih =>
    by_cases hc : isWordC c = true
    · obtain ⟨o, ho⟩ := tryStateListAt_word c t hc
      refine ⟨o, ?_⟩
      have hfw : firstWordRun (c :: t) = (c :: t).takeWhile isWordC := by
        simp [firstWordRun, List.dropWhile_cons, hc]
      rw [hfw]
      simp [searchStateList, ho]
    · have hc' : isWordC c = false := by simpa using hc
      have ht : hasWordChar t = true := by
        simpa [hasWordChar, hc'] using h
      obtain ⟨o, ho⟩ := ih ht
      refine ⟨o, ?_⟩
      have htr : tryStateListAt (c :: t) = none := by
        simp [tryStateListAt, takeWordL, List.takeWhile_cons, hc']
      have hfw : firstWordRun (c :: t) = firstWordRun t := by
        simp [firstWordRun, List.dropWhile_cons, hc']
      rw [hfw]
      simp [searchStateList, htr, ho]

/-- `_parse_state_list_item` on any line with a word character stores,
under the uppercased first word run, exactly the record derived from
that line, with an empty transitions list. -/
theorem parseStateLine_declares (line : List Char) (m : Model) (h : hasWordChar line = true) :
    alookup (upperFirstWord line) (parseStateLine line m).states =
      some ⟨lineOutputs line, extractComment line, []⟩ := by
  obtain ⟨o, ho⟩ := searchStateList_hasWord line h
  cases o with
  | none => simp [parseStateLine, ho, lineOutputs, upperFirstWord, alookup_aset_self]
  | some oo => simp [parseStateLine, ho, lineOutputs, upperFirstWord, alookup_aset_self]

/-- Claim C4: re-declaring an already-present state name in STATE_LIST
replaces its record rather than merging: whatever record `r` the name
held before, afterwards it holds exactly the outputs and comment of the
new line together with an empty transitions list — every previously
attached transition is erased. -/
theorem statelist_redeclaration_erases_transitions (m : Model) (line : List Char)
    (name : String) (r : StateRecord)
    (hprev : alookup name m.states = some r)
    (hword : hasWordChar line = true)
    (hname : upperFirstWord line = name) :
    alookup name (parseStateLine line m).states =
      some ⟨lineOutputs line, extractComment line, []⟩ := by
  subst hname
  exact parseStateLine_declares line m hword

/-- Witness for C4: state A held one transition; re-declaring it via
`a [Output: X = 1]` leaves the record declared by the new line, with the
transition list reset and the outputs taken from the line. -/
theorem statelist_redeclaration_erases_transitions_witness :
    (alookup "A" mC4.states = some ⟨[], none, [⟨"E", "x", "B", none⟩]⟩ ∧
     hasWordChar "a [Output: X = 1]".data = true ∧
     upperFirstWord "a [Output: X = 1]".data = "A") ∧
    alookup "A" (parseStateLine "a [Output: X = 1]".data mC4).states =
      some ⟨lineOutputs "a [Output: X = 1]".data, extractComment "a [Output: X = 1]".data, []⟩ ∧
    lineOutputs "a [Output: X = 1]".data = [("X", "1")] := by
  exact ⟨⟨by decide, by decide, by decide⟩,
    statelist_redeclaration_erases_transitions mC4 _ "A" ⟨[], none, [⟨"E", "x", "B", none⟩]⟩
      (by decide) (by decide) (by decide), by decide⟩

/-- Claim C10: in the STATE_LIST section, any non-blank dispatched line
(not a `#` line, not a section header) containing at least one word
character declares a state named by its uppercased first maximal word
run, instead of being dropped as non-matching. -/
theorem stray_statelist_line_declares_state (st : PState) (rawLine : List Char)
    (hsec : st.sec = some Sec.stateList)
    (hne : pyStripL rawLine ≠ [])
    (hnothash : (pyStripL rawLine).head? ≠ some '#')
    (hnosec : sectionOf (pyStripL rawLine) = none)
    (hword : hasWordChar (pyStripL rawLine) = true) :
    ∃ st', stepLine st rawLine = Except.ok st' ∧
      (alookup (upperFirstWord (pyStripL rawLine)) st'.model.states).isSome = true := by
  refine ⟨{ st with model := parseStateLine (pyStripL rawLine) st.model }, ?_, ?_⟩
  · unfold stepLine
    cases hl : pyStripL rawLine with
    | nil => exact absurd hl hne
    | cons c t =>
      rw [hl] at hnosec hnothash
      have hch : c ≠ '#' := by simpa using hnothash
      simp only [hnosec, hsec]
      split
      · simp_all
      · rename_i heq
        rw [List.cons.injEq] at heq
        exact absurd heq.1 hch
      · rfl
  · rw [parseStateLine_declares (pyStripL rawLine) st.model hword]
    rfl

/-- Witness for C10: in the STATE_LIST section the stray line
`My cool state` silently declares state MY with empty outputs. -/
theorem stray_statelist_line_declares_state_witness :
    ((⟨some Sec.stateList, none, initModel⟩ : PState).sec = some Sec.stateList ∧
     pyStripL "My cool state".data ≠ [] ∧
     (pyStripL "My cool state".data).head? ≠ some '#' ∧
     sectionOf (pyStripL "My cool state".data) = none ∧
     hasWordChar (pyStripL "My cool state".data) = true) ∧
    (∃ st', stepLine ⟨some Sec.stateList, none, initModel⟩ "My cool state".data = Except.ok st' ∧
      (alookup (upperFirstWord (pyStripL "My cool state".data)) st'.model.states).isSome = true) ∧
    upperFirstWord (pyStripL "My cool state".data) = "MY" ∧
    parseStateLine "My cool state".data initModel = ⟨[], [], [], [("MY", ⟨[], none, []⟩)]⟩ := by
  exact ⟨⟨rfl, by decide, by decide, by decide, by decide⟩,
    stray_statelist_line_declares_state ⟨some Sec.stateList, none, initModel⟩ "My cool state".data
      rfl (by decide) (by decide) (by decide) (by decide),
    by decide, by decide⟩

/-- Membership in a Python-set add. -/
theorem mem_setAdd (x y : String) (s : List String) :
    x ∈ setAdd y s ↔ x = y ∨ x ∈ s := by
  by_cases hy : y ∈ s
  · simp only [setAdd, if_pos hy]
    constructor
    · exact Or.inr
    · rintro (rfl | hx)
      · exact hy
      · exact hx
  · simp [setAdd, hy, or_comm]

/-- Membership after folding a list into a Python set. -/
theorem mem_foldl_setAdd {β : Type} (g : β → String) (x : String) (L : List β)
    (init : List String) :
    x ∈ L.foldl (fun s b => setAdd (g b) s) init ↔ x ∈ init ∨ x ∈ L.map g := by
  induction L generalizing init with
  | nil => simp
  | cons b t ih =>
    simp only [List.foldl_cons, List.map_cons, List.mem_cons]
    rw [ih, mem_setAdd]
    tauto

/-- Membership after the nested per-state fold of `get_all_target_states`. -/
theorem mem_foldl_states (x : String) (L : List (String × StateRecord)) (init : List String) :
    x ∈ L.foldl (fun s nr => nr.2.transitions.foldl (fun s' tr => setAdd tr.target s') s) init ↔
      x ∈ init ∨ x ∈ (L.map (fun nr => nr.2.transitions.map Transition.target)).flatten := by
  induction L generalizing init with
  | nil => simp
  | cons b t ih =>
    simp only [List.foldl_cons, List.map_cons, List.flatten_cons, List.mem_append]
    rw [ih, mem_foldl_setAdd Transition.target]
    tauto

/-- The target set built by `get_all_target_states` holds exactly the
targets written in the model. -/
theorem mem_getAllTargetStates (m : Model) (x : String) :
    x ∈ getAllTargetStates m ↔ x ∈ rawTargets m := by
  unfold getAllTargetStates rawTargets
  rw [mem_foldl_states, mem_foldl_setAdd GTransition.target, List.mem_append]
  simp

/-- The undefined list is empty exactly when every written target is a
defined state. -/
theorem undefinedOf_eq_nil_iff (m : Model) :
    undefinedOf m = [] ↔ ∀ u ∈ rawTargets m, u ∈ getAllDefinedStates m := by
  rw [undefinedOf, List.filter_eq_nil_iff]
  constructor
  · intro h u hu
    have hu' : u ∈ getAllTargetStates m := (mem_getAllTargetStates m u).2 hu
    have := h u hu'
    simpa [List.elem_iff] using this
  · intro h a ha
    have : a ∈ rawTargets m := (mem_getAllTargetStates m a).1 ha
    simp [List.elem_iff, h a this]

/-- The undefined-state check emits nothing exactly when the undefined
list is empty. -/
theorem checkUndefined_eq_nil_iff (m : Model) :
    checkUndefinedStates m = [] ↔ undefinedOf m = [] := by
  by_cases hU : undefinedOf m = []
  · simp [checkUndefinedStates, hU]
  · simp [checkUndefinedStates, hU, List.isEmpty_iff]

/-- Claim C7: the undefined-state check computes the difference between
written transition targets and defined states; membership in the
emitted name list coincides with that difference (first conjunct), a
critique is emitted exactly when the difference is non-empty (second),
and at most one critique is emitted, which joins precisely the computed
name list (third and fourth). -/
theorem validator_undefined_state_check (m : Model) (t : String) :
    (t ∈ undefinedOf m ↔ t ∈ rawTargets m ∧ ¬ t ∈ getAllDefinedStates m) ∧
    (checkUndefinedStates m = [] ↔ ∀ u ∈ rawTargets m, u ∈ getAllDefinedStates m) ∧
    (∀ s ∈ checkUndefinedStates m, s = undefinedMsg (joinSep ", " (undefinedOf m))) ∧
    (checkUndefinedStates m).length ≤ 1 := by
  refine ⟨?_, (checkUndefined_eq_nil_iff m).trans (undefinedOf_eq_nil_iff m), ?_, ?_⟩
  · rw [undefinedOf, List.mem_filter, mem_getAllTargetStates]
    simp [List.elem_iff]
  · intro s hs
    by_cases hU : undefinedOf m = []
    · simp [checkUndefinedStates, hU] at hs
    · simp only [checkUndefinedStates, List.isEmpty_iff] at hs
      rw [if_pos (by simpa using hU)] at hs
      simpa using hs
  · by_cases hU : undefinedOf m = [] <;>
      simp [checkUndefinedStates, hU, List.isEmpty_iff]

/-- Witness for C7: with A defined and GLOB, B referenced but
undefined, the single critique names exactly GLOB and B. -/
theorem validator_undefined_state_check_witness :
    (("B" ∈ undefinedOf mC7 ↔ "B" ∈ rawTargets mC7 ∧ ¬ "B" ∈ getAllDefinedStates mC7) ∧
     (checkUndefinedStates mC7 = [] ↔ ∀ u ∈ rawTargets mC7, u ∈ getAllDefinedStates mC7) ∧
     (∀ s ∈ checkUndefinedStates mC7, s = undefinedMsg (joinSep ", " (undefinedOf mC7))) ∧
     (checkUndefinedStates mC7).length ≤ 1) ∧
    undefinedOf mC7 = ["GLOB", "B"] ∧
    checkUndefinedStates mC7 = [undefinedMsg "GLOB, B"] := by
  exact ⟨validator_undefined_state_check mC7 "B", by decide, by decide⟩

/-- Deadlock critiques for different states are different strings. -/
theorem deadlockMsg_inj (a b : String) (h : deadlockMsg a = deadlockMsg b) : a = b := by
  have h' : (deadlockMsg a).data = (deadlockMsg b).data := by rw [h]
  simp only [deadlockMsg, String.data_append, List.append_assoc] at h'
  have h2 := List.append_cancel_left (List.append_cancel_left h')
  exact String.ext (List.append_cancel_right h2)

/-- The two nested ifs of the deadlock loop body collapse to one test. -/
theorem deadlockStep_eq (m : Model) (acc : List String) (nr : String × StateRecord) :
    deadlockStep m acc nr = if deadlockCond m nr then acc ++ [deadlockMsg nr.1] else acc := by
  by_cases h1 : nr.2.transitions.isEmpty = true
  · by_cases h2 : ((m.global_transitions.any fun t => t.target = nr.1) ||
        m.states.any fun sr => sr.2.transitions.any fun t => t.target = nr.1) = true
    · simp [deadlockStep, deadlockCond, h1, h2]
    · simp [deadlockStep, deadlockCond, h1, h2]
  · simp [deadlockStep, deadlockCond, h1]

/-- The deadlock fold appends one critique per qualifying entry. -/
theorem findDeadlocks_aux (m : Model) (L : List (String × StateRecord)) (acc : List String) :
    L.foldl (deadlockStep m) acc =
      acc ++ L.filterMap (fun nr => if deadlockCond m nr then some (deadlockMsg nr.1) else none) := by
  induction L generalizing acc with
  | nil => simp
  | cons b t ih =>
    rw [List.foldl_cons, List.filterMap_cons, deadlockStep_eq]
    by_cases hb : deadlockCond m b = true
    · simp [hb, ih]
    · simp [hb, ih]

/-- `_find_deadlocks` as a filterMap over the states entries. -/
theorem findDeadlocks_eq (m : Model) :
    findDeadlocks m = m.states.filterMap
      (fun nr => if deadlockCond m nr then some (deadlockMsg nr.1) else none) := by
  unfold findDeadlocks
  simpa using findDeadlocks_aux m m.states []

/-- A name absent from the keys receives no deadlock critique. -/
theorem count_deadlock_zero (m : Model) (n : String) (L : List (String × StateRecord))
    (hn : ¬ n ∈ L.map Prod.fst) :
    (L.filterMap (fun nr => if deadlockCond m nr then some (deadlockMsg nr.1) else none)).count
      (deadlockMsg n) = 0 := by
  induction L with
  | nil => simp
  | cons b t ih =>
    simp only [List.map_cons, List.mem_cons] at hn
    push_neg at hn
    have hmsg : deadlockMsg b.1 ≠ deadlockMsg n := fun h => hn.1 (deadlockMsg_inj _ _ h).symm
    by_cases hb : deadlockCond m b = true
    · simp [List.filterMap_cons, hb, List.count_cons, ih hn.2, hmsg]
    · simp [List.filterMap_cons, hb, ih hn.2]

/-- With distinct keys, the critique count for a present entry is one
when its condition holds and zero otherwise. -/
theorem count_deadlock_mem (m : Model) (n : String) (r : StateRecord)
    (L : List (String × StateRecord))
    (hnd : (L.map Prod.fst).Nodup) (hmem : (n, r) ∈ L) :
    (L.filterMap (fun nr => if deadlockCond m nr then some (deadlockMsg nr.1) else none)).count
      (deadlockMsg n) = if deadlockCond m (n, r) then 1 else 0 := by
  induction L with
  | nil => simp at hmem
  | cons b t ih =>
    rw [List.map_cons, List.nodup_cons] at hnd
    rcases List.mem_cons.mp hmem with heq | hmem'
    · subst heq
      have hz := count_deadlock_zero m n t (by simpa using hnd.1)
      by_cases hb : deadlockCond m (n, r) = true
      · simp [List.filterMap_cons, hb, List.count_cons, hz]
      · simp [List.filterMap_cons, hb, hz]
    · have hbn : b.1 ≠ n := by
        intro h
        exact hnd.1 (h ▸ List.mem_map_of_mem Prod.fst hmem')
      have hmsg : deadlockMsg b.1 ≠ deadlockMsg n := fun h => hbn (deadlockMsg_inj _ _ h)
      by_cases hb : deadlockCond m b = true
      · simp [List.filterMap_cons, hb, List.count_cons, hmsg, ih hnd.2 hmem']
      · simp [List.filterMap_cons, hb, ih hnd.2 hmem']

/-- Spelling out membership in the written-targets list. -/
theorem mem_rawTargets_iff (m : Model) (n : String) : n ∈ rawTargets m ↔
    ((∃ x ∈ m.global_transitions, x.target = n) ∨
     ∃ nr ∈ m.states, ∃ t ∈ nr.2.transitions, t.target = n) := by
  simp only [rawTargets, List.mem_append, List.mem_map, List.mem_flatten]
  constructor
  · rintro (⟨x, hx, rfl⟩ | ⟨l, ⟨nr, hnr, rfl⟩, hnl⟩)
    · exact Or.inl ⟨x, hx, rfl⟩
    · obtain ⟨t, ht, rfl⟩ := List.mem_map.mp hnl
      exact Or.inr ⟨nr, hnr, t, ht, rfl⟩
  · rintro (⟨x, hx, rfl⟩ | ⟨nr, hnr, t, ht, rfl⟩)
    · exact Or.inl ⟨x, hx, rfl⟩
    · exact Or.inr ⟨_, ⟨nr, hnr, rfl⟩, List.mem_map_of_mem Transition.target ht⟩

/-- The code's deadlock test coincides with "terminal and referenced". -/
theorem deadlockCond_iff (m : Model) (n : String) (r : StateRecord) :
    deadlockCond m (n, r) = true ↔ (r.transitions = [] ∧ referencedAsTarget m n = true) := by
  simp only [deadlockCond, Bool.and_eq_true, List.isEmpty_iff, Bool.or_eq_true,
    List.any_eq_true, referencedAsTarget, List.elem_iff, mem_rawTargets_iff,
    decide_eq_true_eq]

/-- Claim C6: for a defined state (distinct keys as in a Python dict),
the deadlock check emits exactly one critique when its transitions list
is empty and it is referenced as some global or state transition's
target, and none otherwise — in particular none for an unreferenced
terminal state. -/
theorem validator_deadlock_check (m : Model) (n : String) (r : StateRecord)
    (hnd : (m.states.map Prod.fst).Nodup) (hmem : (n, r) ∈ m.states) :
    (findDeadlocks m).count (deadlockMsg n) =
      if r.transitions = [] ∧ referencedAsTarget m n = true then 1 else 0 := by
  rw [findDeadlocks_eq, count_deadlock_mem m n r m.states hnd hmem]
  by_cases h : deadlockCond m (n, r) = true
  · rw [if_pos h, if_pos ((deadlockCond_iff m n r).mp h)]
  · rw [if_neg (by simpa using h), if_neg (fun hc => h ((deadlockCond_iff m n r).mpr hc))]

/-- Witness for C6: B is terminal and referenced, so it gets exactly one
deadlock critique; C is terminal but unreferenced and the critique list
holds nothing for it. -/
theorem validator_deadlock_check_witness :
    ((mC6.states.map Prod.fst).Nodup ∧ ("B", ⟨[], some "", []⟩) ∈ mC6.states) ∧
    (findDeadlocks mC6).count (deadlockMsg "B") =
      (if (⟨[], some "", []⟩ : StateRecord).transitions = [] ∧ referencedAsTarget mC6 "B" = true
       then 1 else 0) ∧
    findDeadlocks mC6 = [deadlockMsg "B"] := by
  refine ⟨⟨by decide, by decide⟩, ?_, by decide⟩
  exact validator_deadlock_check mC6 "B" ⟨[], some "", []⟩ (by decide) (by decide)

/-- Hex digits emitted for values below 16 decode back to the value. -/
theorem hexRound (n : Nat) (h : n < 16) :
    isHexDigC (hexDigChar n) = true ∧ hexVal (hexDigChar n) = n := by
  interval_cases n <;> decide

/-- String-body round trip: parsing an escaped string followed by its
closing quote returns the original characters and the rest. -/
theorem parseStrChars_escStr (s : List Char) (rest : List Char) :
    parseStrChars (escStr s ++ '"' :: rest) = some (s, rest) := by
  induction s with
  | nil =>
    rw [show escStr [] ++ '"' :: rest = '"' :: rest from rfl, parseStrChars.eq_def]
    simp
  | cons c t ih =>
    by_cases hq : c = '"'
    · subst hq
      show parseStrChars ('\\' :: '"' :: (escStr t ++ '"' :: rest)) = _
      rw [parseStrChars.eq_def]
      simp [ih]
    · by_cases hb : c = '\\'
      · subst hb
        show parseStrChars ('\\' :: '\\' :: (escStr t ++ '"' :: rest)) = _
        rw [parseStrChars.eq_def]
        simp [ih]
      · by_cases hc : c.toNat < 32
        · have h16a : c.toNat / 16 < 16 := by omega
          have h16b : c.toNat % 16 < 16 := by omega
          have ha := hexRound _ h16a
          have hb' := hexRound _ h16b
          have hv : hexVal '0' * 4096 + hexVal '0' * 256 +
              hexVal (hexDigChar (c.toNat / 16)) * 16 + hexVal (hexDigChar (c.toNat % 16)) =
              c.toNat := by
            rw [ha.2, hb'.2]
            rw [show hexVal '0' = 0 from by decide]
            omega
          have hesc : escStr (c :: t) ++ '"' :: rest =
              '\\' :: 'u' :: '0' :: '0' :: hexDigChar (c.toNat / 16) :: hexDigChar (c.toNat % 16)
                :: (escStr t ++ '"' :: rest) := by
            simp [escStr, escChar, hq, hb, hc]
          rw [hesc, parseStrChars.eq_def]
          simp [ha.1, hb'.1, ih, hv, Char.ofNat_toNat,
            show isHexDigC '0' = true from by decide]
        · have hesc : escStr (c :: t) ++ '"' :: rest = c :: (escStr t ++ '"' :: rest) := by
            simp [escStr, escChar, hq, hb, hc]
          rw [hesc, parseStrChars.eq_def]
          simp [hq, hb, ih]

/-- Every value has positive size. -/
theorem one_le_sizeV (v : PyVal) : 1 ≤ sizeV v := by cases v <;> simp [sizeV]

/-- Every array tail has positive size. -/
theorem one_le_sizeA (a : PyArr) : 1 ≤ sizeA a := by cases a <;> simp [sizeA]

/-- Every object tail has positive size. -/
theorem one_le_sizeO (o : PyObj) : 1 ≤ sizeO o := by cases o <;> simp [sizeO]

/-- Whitespace skipping leaves a non-whitespace head alone. -/
theorem dropWsL_cons_not (c : Char) (l : List Char) (h : isWsC c = false) :
    dropWsL (c :: l) = c :: l := by simp [dropWsL, List.dropWhile_cons, h]

/-- The value parser skips a leading blank. -/
theorem parseV_ws (fuel : Nat) (s : List Char) : parseV fuel (' ' :: s) = parseV fuel s := by
  cases fuel with
  | zero => rfl
  | succ f =>
    simp only [parseV]
    rw [show dropWsL (' ' :: s) = dropWsL s from by
      simp [dropWsL, List.dropWhile_cons, show isWsC ' ' = true from by decide]]

/-- Serialized values start with a quote, `n`, bracket or brace — never
whitespace, a closing token or a comma. -/
theorem dumpV_head (v : PyVal) : ∃ c t, dumpV v = c :: t ∧ isWsC c = false ∧
    c ≠ ']' ∧ c ≠ '}' ∧ c ≠ ',' := by
  cases v with
  | str s => exact ⟨'"', _, rfl, by decide, by decide, by decide, by decide⟩
  | null => exact ⟨'n', _, rfl, by decide, by decide, by decide, by decide⟩
  | arr a => exact ⟨'[', _, rfl, by decide, by decide, by decide, by decide⟩
  | obj o => exact ⟨'{', _, rfl, by decide, by decide, by decide, by decide⟩

/-- Round trip of the JSON grammar at every fuel bound: parsing a
serialized value (or array / object item sequence) consumes exactly it
and returns it. -/
theorem json_roundtrip_fueled : ∀ fuel : Nat,
    (∀ v rest, sizeV v ≤ fuel → parseV fuel (dumpV v ++ rest) = some (v, rest)) ∧
    (∀ a rest, sizeA a ≤ fuel → parseArr fuel (dumpArr a ++ ']' :: rest) = some (a, rest)) ∧
    (∀ a rest, sizeA a ≤ fuel → parseArrTail fuel (dumpArrTail a ++ ']' :: rest) = some (a, rest)) ∧
    (∀ o rest, sizeO o ≤ fuel → parseObj fuel (dumpObj o ++ '}' :: rest) = some (o, rest)) ∧
    (∀ o rest, sizeO o ≤ fuel → parseObjTail fuel (dumpObjTail o ++ '}' :: rest) = some (o, rest)) := by
  intro fuel
  induction fuel with
  | zero =>
    refine ⟨fun v rest h => absurd h (by have := one_le_sizeV v; omega),
      fun a rest h => absurd h (by have := one_le_sizeA a; omega),
      fun a rest h => absurd h (by have := one_le_sizeA a; omega),
      fun o rest h => absurd h (by have := one_le_sizeO o; omega),
      fun o rest h => absurd h (by have := one_le_sizeO o; omega)⟩
  | succ fuel ih =>
    obtain ⟨ihV, ihA, ihT, ihO, ihU⟩ := ih
    refine ⟨?_, ?_, ?_, ?_, ?_⟩
    · intro v rest h
      cases v with
      | str s =>
        have hin : dumpV (PyVal.str s) ++ rest = '"' :: (escStr s.data ++ ('"' :: rest)) := by
          simp [dumpV]
        rw [hin]
        simp only [parseV]
        rw [dropWsL_cons_not _ _ (by decide)]
        simp [parseStrChars_escStr]
        rfl
      | null =>
        have hin : dumpV PyVal.null ++ rest = 'n' :: 'u' :: 'l' :: 'l' :: rest := by
          simp [dumpV]
        rw [hin]
        simp only [parseV]
        rw [dropWsL_cons_not _ _ (by decide)]
        rfl
      | arr a =>
        have hin : dumpV (PyVal.arr a) ++ rest = '[' :: (dumpArr a ++ (']' :: rest)) := by
          simp [dumpV]
        rw [hin]
        simp only [parseV]
        rw [dropWsL_cons_not _ _ (by decide)]
        have hA : parseArr fuel (dumpArr a ++ ']' :: rest) = some (a, rest) := by
          apply ihA
          simp only [sizeV] at h
          omega
        simp [hA]
      | obj o =>
        have hin : dumpV (PyVal.obj o) ++ rest = '{' :: (dumpObj o ++ ('}' :: rest)) := by
          simp [dumpV]
        rw [hin]
        simp only [parseV]
        rw [dropWsL_cons_not _ _ (by decide)]
        have hO : parseObj fuel (dumpObj o ++ '}' :: rest) = some (o, rest) := by
          apply ihO
          simp only [sizeV] at h
          omega
        simp [hO]
    · intro a rest h
      cases a with
      | nil =>
        have hin : dumpArr PyArr.nil ++ ']' :: rest = ']' :: rest := by simp [dumpArr]
        rw [hin]
        simp only [parseArr]
        rw [dropWsL_cons_not _ _ (by decide)]
        rfl
      | cons v t =>
        obtain ⟨c, s', hv, hws, hbr, _, _⟩ := dumpV_head v
        have hm : Nat.max (sizeV v) (sizeA t) ≤ fuel := by
          simp only [sizeA] at h
          omega
        have hszv : sizeV v ≤ fuel := le_trans (Nat.le_max_left _ _) hm
        have hszt : sizeA t ≤ fuel := le_trans (Nat.le_max_right _ _) hm
        have hin : dumpArr (PyArr.cons v t) ++ ']' :: rest =
            c :: (s' ++ (dumpArrTail t ++ ']' :: rest)) := by
          simp [dumpArr, hv]
        rw [hin]
        simp only [parseArr]
        rw [dropWsL_cons_not _ _ hws]
        have hstep : (match (c :: (s' ++ (dumpArrTail t ++ ']' :: rest)) : List Char) with
            | ']' :: r => some (PyArr.nil, r)
            | s' => do
              let p ← parseV fuel s'
              let q ← parseArrTail fuel p.2
              pure (PyArr.cons p.1 q.1, q.2)) = (do
              let p ← parseV fuel (c :: (s' ++ (dumpArrTail t ++ ']' :: rest)))
              let q ← parseArrTail fuel p.2
              pure (PyArr.cons p.1 q.1, q.2)) := by
          split
          · rename_i heq
            rw [List.cons.injEq] at heq
            exact absurd heq.1 hbr
          · rfl
        rw [hstep]
        have h1 : c :: (s' ++ (dumpArrTail t ++ ']' :: rest)) =
            dumpV v ++ (dumpArrTail t ++ ']' :: rest) := by
          rw [hv, List.cons_append]
        rw [h1, ihV v _ hszv]
        simp [ihT t rest hszt]
    · intro a rest h
      cases a with
      | nil =>
        have hin : dumpArrTail PyArr.nil ++ ']' :: rest = ']' :: rest := by simp [dumpArrTail]
        rw [hin]
        simp only [parseArrTail]
        rw [dropWsL_cons_not _ _ (by decide)]
        rfl
      | cons v t =>
        have hm : Nat.max (sizeV v) (sizeA t) ≤ fuel := by
          simp only [sizeA] at h
          omega
        have hszv : sizeV v ≤ fuel := le_trans (Nat.le_max_left _ _) hm
        have hszt : sizeA t ≤ fuel := le_trans (Nat.le_max_right _ _) hm
        have hin : dumpArrTail (PyArr.cons v t) ++ ']' :: rest =
            ',' :: ' ' :: (dumpV v ++ (dumpArrTail t ++ ']' :: rest)) := by
          simp [dumpArrTail]
        rw [hin]
        simp only [parseArrTail]
        rw [dropWsL_cons_not _ _ (by decide)]
        show (do
            let p ← parseV fuel (' ' :: (dumpV v ++ (dumpArrTail t ++ ']' :: rest)))
            let q ← parseArrTail fuel p.2
            pure (PyArr.cons p.1 q.1, q.2)) = some (PyArr.cons v t, rest)
        rw [parseV_ws, ihV v _ hszv]
        simp [ihT t rest hszt]
    · intro o rest h
      cases o with
      | nil =>
        have hin : dumpObj PyObj.nil ++ '}' :: rest = '}' :: rest := by simp [dumpObj]
        rw [hin]
        simp only [parseObj]
        rw [dropWsL_cons_not _ _ (by decide)]
        rfl
      | cons k v t =>
        have hm : Nat.max (sizeV v) (sizeO t) ≤ fuel := by
          simp only [sizeO] at h
          omega
        have hszv : sizeV v ≤ fuel := le_trans (Nat.le_max_left _ _) hm
        have hszt : sizeO t ≤ fuel := le_trans (Nat.le_max_right _ _) hm
        have hin : dumpObj (PyObj.cons k v t) ++ '}' :: rest =
            '"' :: (escStr k.data ++
              ('"' :: (':' :: ' ' :: (dumpV v ++ (dumpObjTail t ++ '}' :: rest))))) := by
          simp [dumpObj]
        rw [hin]
        simp only [parseObj]
        rw [dropWsL_cons_not _ _ (by decide)]
        show (do
            let p ← parseStrChars (escStr k.data ++
              ('"' :: (':' :: ' ' :: (dumpV v ++ (dumpObjTail t ++ '}' :: rest)))))
            match dropWsL p.2 with
            | ':' :: r2 => do
              let q ← parseV fuel r2
              let u ← parseObjTail fuel q.2
              pure (PyObj.cons (strOf p.1) q.1 u.1, u.2)
            | _ => none) = some (PyObj.cons k v t, rest)
        rw [parseStrChars_escStr]
        show (match dropWsL (':' :: ' ' :: (dumpV v ++ (dumpObjTail t ++ '}' :: rest))) with
            | ':' :: r2 => do
              let q ← parseV fuel r2
              let u ← parseObjTail fuel q.2
              pure (PyObj.cons (strOf k.data) q.1 u.1, u.2)
            | _ => none) = some (PyObj.cons k v t, rest)
        rw [dropWsL_cons_not _ _ (by decide)]
        show (do
            let q ← parseV fuel (' ' :: (dumpV v ++ (dumpObjTail t ++ '}' :: rest)))
            let u ← parseObjTail fuel q.2
            pure (PyObj.cons (strOf k.data) q.1 u.1, u.2)) = some (PyObj.cons k v t, rest)
        rw [parseV_ws, ihV v _ hszv]
        simp [ihU t rest hszt]
        rfl
    · intro o rest h
      cases o with
      | nil =>
        have hin : dumpObjTail PyObj.nil ++ '}' :: rest = '}' :: rest := by simp [dumpObjTail]
        rw [hin]
        simp only [parseObjTail]
        rw [dropWsL_cons_not _ _ (by decide)]
        rfl
      | cons k v t =>
        have hm : Nat.max (sizeV v) (sizeO t) ≤ fuel := by
          simp only [sizeO] at h
          omega
        have hszv : sizeV v ≤ fuel := le_trans (Nat.le_max_left _ _) hm
        have hszt : sizeO t ≤ fuel := le_trans (Nat.le_max_right _ _) hm
        have hin : dumpObjTail (PyObj.cons k v t) ++ '}' :: rest =
            ',' :: ' ' :: '"' :: (escStr k.data ++
              ('"' :: (':' :: ' ' :: (dumpV v ++ (dumpObjTail t ++ '}' :: rest))))) := by
          simp [dumpObjTail]
        rw [hin]
        simp only [parseObjTail]
        rw [dropWsL_cons_not _ _ (by decide)]
        show (do
            let p ← parseStrChars (escStr k.data ++
              ('"' :: (':' :: ' ' :: (dumpV v ++ (dumpObjTail t ++ '}' :: rest)))))
            match dropWsL p.2 with
            | ':' :: r3 => do
              let q ← parseV fuel r3
              let u ← parseObjTail fuel q.2
              pure (PyObj.cons (strOf p.1) q.1 u.1, u.2)
            | _ => none) = some (PyObj.cons k v t, rest)
        rw [parseStrChars_escStr]
        show (match dropWsL (':' :: ' ' :: (dumpV v ++ (dumpObjTail t ++ '}' :: rest))) with
            | ':' :: r3 => do
              let q ← parseV fuel r3
              let u ← parseObjTail fuel q.2
              pure (PyObj.cons (strOf k.data) q.1 u.1, u.2)
            | _ => none) = some (PyObj.cons k v t, rest)
        rw [dropWsL_cons_not _ _ (by decide)]
        show (do
            let q ← parseV fuel (' ' :: (dumpV v ++ (dumpObjTail t ++ '}' :: rest)))
            let u ← parseObjTail fuel q.2
            pure (PyObj.cons (strOf k.data) q.1 u.1, u.2)) = some (PyObj.cons k v t, rest)
        rw [parseV_ws, ihV v _ hszv]
        simp [ihU t rest hszt]
        rfl

/-
Size bounds: the fuel a value needs is covered by the length of its
serialization.
-/
mutual
theorem sizeV_le_dump (v : PyVal) : sizeV v ≤ (dumpV v).length := by
  cases v with
  | str s => simp [sizeV, dumpV]
  | null => simp [sizeV, dumpV]
  | arr a =>
    have h1 := sizeA_le_dumpArr a
    rw [show sizeV (PyVal.arr a) = sizeA a + 1 from rfl]
    have hlen : (dumpV (PyVal.arr a)).length = (dumpArr a).length + 2 := by
      simp [dumpV]
    omega
  | obj o =>
    have h1 := sizeO_le_dumpObj o
    rw [show sizeV (PyVal.obj o) = sizeO o + 1 from rfl]
    have hlen : (dumpV (PyVal.obj o)).length = (dumpObj o).length + 2 := by
      simp [dumpV]
    omega
theorem sizeA_le_dumpArr (a : PyArr) : sizeA a ≤ (dumpArr a).length + 1 := by
  cases a with
  | nil => simp [sizeA, dumpArr]
  | cons v t =>
    have h1 := sizeV_le_dump v
    have h2 := sizeA_le_dumpArrTail t
    have h3 := one_le_sizeV v
    rw [show sizeA (PyArr.cons v t) = Nat.max (sizeV v) (sizeA t) + 1 from rfl]
    have hlen : (dumpArr (PyArr.cons v t)).length =
        (dumpV v).length + (dumpArrTail t).length := by
      simp [dumpArr]
    rw [hlen]
    exact Nat.add_le_add_right (Nat.max_le.mpr ⟨by omega, by omega⟩) 1
theorem sizeA_le_dumpArrTail (a : PyArr) : sizeA a ≤ (dumpArrTail a).length + 1 := by
  cases a with
  | nil => simp [sizeA, dumpArrTail]
  | cons v t =>
    have h1 := sizeV_le_dump v
    have h2 := sizeA_le_dumpArrTail t
    rw [show sizeA (PyArr.cons v t) = Nat.max (sizeV v) (sizeA t) + 1 from rfl]
    have hlen : (dumpArrTail (PyArr.cons v t)).length =
        (dumpV v).length + (dumpArrTail t).length + 2 := by
      simp [dumpArrTail]
    rw [hlen]
    exact Nat.add_le_add_right (Nat.max_le.mpr ⟨by omega, by omega⟩) 1
theorem sizeO_le_dumpObj (o : PyObj) : sizeO o ≤ (dumpObj o).length + 1 := by
  cases o with
  | nil => simp [sizeO, dumpObj]
  | cons k v t =>
    have h1 := sizeV_le_dump v
    have h2 := sizeO_le_dumpObjTail t
    rw [show sizeO (PyObj.cons k v t) = Nat.max (sizeV v) (sizeO t) + 1 from rfl]
    have hlen : (dumpObj (PyObj.cons k v t)).length =
        (escStr k.data).length + (dumpV v).length + (dumpObjTail t).length + 4 := by
      simp [dumpObj]
      omega
    rw [hlen]
    exact Nat.add_le_add_right (Nat.max_le.mpr ⟨by omega, by omega⟩) 1
theorem sizeO_le_dumpObjTail (o : PyObj) : sizeO o ≤ (dumpObjTail o).length + 1 := by
  cases o with
  | nil => simp [sizeO, dumpObjTail]
  | cons k v t =>
    have h1 := sizeV_le_dump v
    have h2 := sizeO_le_dumpObjTail t
    rw [show sizeO (PyObj.cons k v t) = Nat.max (sizeV v) (sizeO t) + 1 from rfl]
    have hlen : (dumpObjTail (PyObj.cons k v t)).length =
        (escStr k.data).length + (dumpV v).length + (dumpObjTail t).length + 6 := by
      simp [dumpObjTail]
      omega
    rw [hlen]
    exact Nat.add_le_add_right (Nat.max_le.mpr ⟨by omega, by omega⟩) 1
end

/-- json.loads inverts json.dumps on every Document-shaped value. -/
theorem pyLoads_pyDumps (v : PyVal) : pyLoads (pyDumps v) = some v := by
  unfold pyLoads pyDumps
  have hd : (strOf (dumpV v)).data = dumpV v := rfl
  rw [hd]
  have hsz : sizeV v ≤ (dumpV v).length + 1 := by
    have := sizeV_le_dump v
    omega
  have hrt := (json_roundtrip_fueled ((dumpV v).length + 1)).1 v [] hsz
  rw [List.append_nil] at hrt
  rw [hrt]
  simp [dropWsL]

/-- Claim C9: serializing a Document to the canonical JSON text and
deserializing that text reproduces the Document's value field for
field. -/
theorem document_json_roundtrip (m : Model) :
    pyLoads (pyDumps (modelToPy m)) = some (modelToPy m) :=
  pyLoads_pyDumps (modelToPy m)

/-- Witness for C9: the empty Document round-trips through its JSON
text. -/
theorem document_json_roundtrip_witness :
    pyLoads (pyDumps (modelToPy initModel)) = some (modelToPy initModel) :=
  document_json_roundtrip initModel
